import Mathlib

/-!
Verification development for the finarith repository: overflow-safe 64-bit
integer arithmetic (packages `safeint` and `safeuint`) and the rounding
engine (package `rounding`, functions `RoundFloat64` and `RoundInt64`).

Embedding conventions:
* Go `int64` values are embedded as `Int`; every Go `int64` arithmetic
  operation (`+`, `-`, `*`, unary `-`) wraps to two's complement, which Go
  defines as reduction modulo `2^64` into `[-2^63, 2^63)`.  The helpers
  `addW`, `subW`, `mulW`, `negW` perform exactly that.  Go's `/` and `%` on
  `int64` truncate toward zero, i.e. `Int.tdiv` and `Int.tmod` (the one
  wrapping division case, `MinInt64 / -1`, is never reached by this code).
* Go `uint64` values are embedded as `Nat`; arithmetic wraps modulo `2^64`
  (`uaddW`, `usubW`, `umulW`); `/` is `Nat.div`.
* A Go two-value return `(v, err)` is embedded as a pair `v × Option Err`.
-/

def maxInt64 : Int := 2 ^ 63 - 1

def minInt64 : Int := -(2 ^ 63)

def maxUint64 : Nat := 2 ^ 64 - 1

/-- Reduction of an integer to the two's-complement `int64` range
`[-2^63, 2^63)`, the wrap-around semantics Go defines for `int64`
overflow. -/
def wrap64 (n : Int) : Int := (n + 2 ^ 63) % 2 ^ 64 - 2 ^ 63

/-- Go `int64` addition (wraps on overflow). -/
def addW (a b : Int) : Int := wrap64 (a + b)

/-- Go `int64` subtraction (wraps on overflow). -/
def subW (a b : Int) : Int := wrap64 (a - b)

/-- Go `int64` multiplication (wraps on overflow). -/
def mulW (a b : Int) : Int := wrap64 (a * b)

/-- Go `int64` unary negation (wraps at `MinInt64`). -/
def negW (a : Int) : Int := wrap64 (-a)

/-- Go `uint64` addition (wraps modulo `2^64`). -/
def uaddW (a b : Nat) : Nat := (a + b) % 2 ^ 64

/-- Go `uint64` subtraction (wraps modulo `2^64`; the formula is the Go
value for any operands below `2^64`). -/
def usubW (a b : Nat) : Nat := (2 ^ 64 + a - b) % 2 ^ 64

/-- Go `uint64` multiplication (wraps modulo `2^64`). -/
def umulW (a b : Nat) : Nat := (a * b) % 2 ^ 64

/-- The value fits the signed 64-bit domain. -/
def inI64 (n : Int) : Prop := minInt64 ≤ n ∧ n ≤ maxInt64

instance (n : Int) : Decidable (inI64 n) := by unfold inI64; infer_instance

/-- Embedding of the repository's `errors` package (its source is appended
to src/safeint/safeint_test.go after the document separator, lines
409-487): the closed sum of the error values the core modules return.
`OverflowError` is the struct built by `NewOverflowError(op, a, b)`
(fields `Operation`, `A`, `B`); `LimitError` is the struct built by
`NewLimitError(value, limit, operation)` (fields `Value`, `Limit`,
`Operation`); `ErrInvalidPrecision` and `ErrInvalidRounding` are the two
sentinel errors the rounding engine returns.  The Go fields `A`, `B`,
`Value`, `Limit` have Go's empty-interface type and hold `int64` or
`uint64` at the call sites embedded here; both are carried as `Int` (a
`uint64` via its `Int` image).  The package's remaining sentinels (`ErrOverflow`,
`ErrDivideByZero`, `ErrNegativeValue`, `ErrExceedsLimit`) are only targets
of `errors.Is` and are never returned by the embedded modules, so they are
not values of this type. -/
inductive Err where
  | OverflowError (Operation : String) (A B : Int) : Err
  | LimitError (Value Limit : Int) (Operation : String) : Err
  | ErrInvalidPrecision : Err
  | ErrInvalidRounding : Err
deriving DecidableEq, Repr

namespace safeint

/-- Embedding of `safeint.Add` (src/safeint/safeint.go). -/
def Add (a b : Int) : Int × Option Err :=
  if b > 0 ∧ a > subW maxInt64 b then (0, some (Err.OverflowError "+" a b))
  else if b < 0 ∧ a < subW minInt64 b then (0, some (Err.OverflowError "+" a b))
  else (addW a b, none)

/-- Embedding of `safeint.Sub` (src/safeint/safeint.go). -/
def Sub (a b : Int) : Int × Option Err :=
  if b < 0 ∧ a > addW maxInt64 b then (0, some (Err.OverflowError "-" a b))
  else if b > 0 ∧ a < addW minInt64 b then (0, some (Err.OverflowError "-" a b))
  else (subW a b, none)

/-- Embedding of `safeint.Mul` (src/safeint/safeint.go). -/
def Mul (a b : Int) : Int × Option Err :=
  if a = 0 ∨ b = 0 then (0, none)
  else if a > 0 ∧ b > 0 ∧ a > maxInt64.tdiv b then (0, some (Err.OverflowError "*" a b))
  else if a < 0 ∧ b < 0 ∧ a < maxInt64.tdiv b then (0, some (Err.OverflowError "*" a b))
  else if a > 0 ∧ b < 0 ∧ b < minInt64.tdiv a then (0, some (Err.OverflowError "*" a b))
  else if a < 0 ∧ b > 0 ∧ a < minInt64.tdiv b then (0, some (Err.OverflowError "*" a b))
  else (mulW a b, none)

/-- Embedding of `safeint.AddWithLimit` (src/safeint/safeint.go). -/
def AddWithLimit (a b limit : Int) : Int × Option Err :=
  match Add a b with
  | (_, some e) => (0, some e)
  | (result, none) =>
    if result > limit then (0, some (Err.LimitError result limit "addition"))
    else (result, none)

/-- Embedding of `safeint.SubWithFloor` (src/safeint/safeint.go). -/
def SubWithFloor (a b floor : Int) : Int × Option Err :=
  match Sub a b with
  | (_, some e) => (0, some e)
  | (result, none) =>
    if result < floor then (0, some (Err.LimitError result floor "subtraction floor"))
    else (result, none)

/-- Embedding of `safeint.MulWithLimit` (src/safeint/safeint.go). -/
def MulWithLimit (a b limit : Int) : Int × Option Err :=
  match Mul a b with
  | (_, some e) => (0, some e)
  | (result, none) =>
    if result > limit then (0, some (Err.LimitError result limit "multiplication"))
    else (result, none)

end safeint

namespace safeuint

/-- Embedding of `safeuint.Add` (src/unnamed/part_001). -/
def Add (a b : Nat) : Nat × Option Err :=
  if b > 0 ∧ a > usubW maxUint64 b then (0, some (Err.OverflowError "+" a b))
  else (uaddW a b, none)

/-- Embedding of `safeuint.Sub` (src/unnamed/part_001). -/
def Sub (a b : Nat) : Nat × Option Err :=
  if a < b then (0, some (Err.OverflowError "-" a b))
  else (a - b, none)

/-- Embedding of `safeuint.Mul` (src/unnamed/part_001). -/
def Mul (a b : Nat) : Nat × Option Err :=
  if a = 0 ∨ b = 0 then (0, none)
  else if a > maxUint64 / b then (0, some (Err.OverflowError "*" a b))
  else (umulW a b, none)

/-- Embedding of `safeuint.AddWithLimit` (src/unnamed/part_001). -/
def AddWithLimit (a b limit : Nat) : Nat × Option Err :=
  match Add a b with
  | (_, some e) => (0, some e)
  | (result, none) =>
    if result > limit then (0, some (Err.LimitError result limit "addition"))
    else (result, none)

/-- Embedding of `safeuint.SubWithFloor` (src/unnamed/part_001). -/
def SubWithFloor (a b floor : Nat) : Nat × Option Err :=
  match Sub a b with
  | (_, some e) => (0, some e)
  | (result, none) =>
    if result < floor then (0, some (Err.LimitError result floor "subtraction floor"))
    else (result, none)

/-- Embedding of `safeuint.MulWithLimit` (src/unnamed/part_001). -/
def MulWithLimit (a b limit : Nat) : Nat × Option Err :=
  match Mul a b with
  | (_, some e) => (0, some e)
  | (result, none) =>
    if result > limit then (0, some (Err.LimitError result limit "multiplication"))
    else (result, none)

end safeuint

namespace rounding

/-- The `rounding.Mode` tag is an integer-backed enumeration in the source
(`type Mode int` with iota-assigned constants); it is embedded as `Int` so
that out-of-range tags such as `Mode(99)` are expressible, exactly as the
source's own tests pass them. -/
abbrev Mode := Int

def RoundDown : Int := 0

def RoundUp : Int := 1

def RoundHalfUp : Int := 2

def RoundHalfDown : Int := 3

def RoundHalfEven : Int := 4

def RoundCeiling : Int := 5

def RoundFloor : Int := 6

/-- Embedding of `rounding.RoundInt64` (src/unnamed/part_000).  Go integer
division and remainder truncate toward zero (`Int.tdiv` / `Int.tmod`), and
every `int64` addition, subtraction and multiplication wraps
(`addW`/`subW`/`mulW`/`negW`).  The source's local variables
`halfUnit := unit / 2` and `quotient := value / unit` are pure expressions
and are inlined at each of their uses. -/
def RoundInt64 (value unit mode : Int) : Int × Option Err :=
  if unit ≤ 0 then (0, some Err.ErrInvalidPrecision)
  else if mode = RoundDown then
    if value ≥ 0 then (mulW (value.tdiv unit) unit, none)
    else (mulW ((subW (addW value unit) 1).tdiv unit) unit, none)
  else if mode = RoundUp then
    if value ≥ 0 then (mulW ((subW (addW value unit) 1).tdiv unit) unit, none)
    else (mulW (value.tdiv unit) unit, none)
  else if mode = RoundHalfUp then
    if value ≥ 0 then (mulW ((addW value (unit.tdiv 2)).tdiv unit) unit, none)
    else (mulW ((subW value (unit.tdiv 2)).tdiv unit) unit, none)
  else if mode = RoundHalfDown then
    if value ≥ 0 then
      if value.tmod unit = unit.tdiv 2 then (mulW (value.tdiv unit) unit, none)
      else (mulW ((addW value (unit.tdiv 2)).tdiv unit) unit, none)
    else
      if (negW value).tmod unit = unit.tdiv 2 then (mulW (value.tdiv unit) unit, none)
      else (mulW ((subW value (unit.tdiv 2)).tdiv unit) unit, none)
  else if mode = RoundHalfEven then
    if value.tmod unit = unit.tdiv 2 ∨ value.tmod unit = negW (unit.tdiv 2) then
      if (value.tdiv unit).tmod 2 = 0 then (mulW (value.tdiv unit) unit, none)
      else if value.tdiv unit ≥ 0 then (mulW (addW (value.tdiv unit) 1) unit, none)
      else (mulW (subW (value.tdiv unit) 1) unit, none)
    else
      if value ≥ 0 then (mulW ((addW value (unit.tdiv 2)).tdiv unit) unit, none)
      else (mulW ((subW value (unit.tdiv 2)).tdiv unit) unit, none)
  else if mode = RoundCeiling then
    if value.tmod unit = 0 then (value, none)
    else if value > 0 then (mulW ((subW (addW value unit) 1).tdiv unit) unit, none)
    else (mulW (value.tdiv unit) unit, none)
  else if mode = RoundFloor then
    if value.tmod unit = 0 then (value, none)
    else if value > 0 then (mulW (value.tdiv unit) unit, none)
    else (mulW ((addW (subW value unit) 1).tdiv unit) unit, none)
  else (0, some Err.ErrInvalidRounding)

/-- A `float64` argument of `RoundFloat64`: NaN, one of the two
infinities, or a finite magnitude.  Finite magnitudes are idealized as
exact rationals; the spec itself documents the binary floating-point
imprecision of the float path as an inherent limitation, and no claim
settled here depends on the finite-path arithmetic being evaluated. -/
inductive FloatVal where
  | nan : FloatVal
  | posinf : FloatVal
  | neginf : FloatVal
  | finite (x : ℚ) : FloatVal
deriving DecidableEq, Repr

/-- Go `math.Trunc`: round toward zero to an integer. -/
def ratTrunc (q : ℚ) : ℚ := if 0 ≤ q then (⌊q⌋ : ℚ) else (⌈q⌉ : ℚ)

/-- Go `math.Round`: round to nearest integer, halves away from zero. -/
def ratRound (q : ℚ) : ℚ := if 0 ≤ q then (⌊q + 1/2⌋ : ℚ) else (⌈q - 1/2⌉ : ℚ)

/-- Go `math.Mod(x, y)`: truncated-division remainder. -/
def ratMod (x y : ℚ) : ℚ := x - ratTrunc (x / y) * y

/-- The literal `1e-10` used by the source's RoundHalfDown tie nudge. -/
def halfDownEps : ℚ := 1 / 10 ^ 10

/-- The scaling factor `math.Pow10(decimals)` for a nonnegative decimal
count. -/
def mult10 (decimals : Int) : ℚ := 10 ^ decimals.toNat

/-- Embedding of `rounding.RoundFloat64` (src/unnamed/part_000).  The
`decimals < 0` precision check and the NaN/±Inf pass-through precede the
mode dispatch, exactly as in the source; the finite-magnitude arithmetic is
the source's formulas read over exact rationals (see `FloatVal`).  The
source's local variables (`multiplier`, `scaled`, `intPart`, `fracPart`)
are pure expressions and are inlined at each of their uses. -/
def RoundFloat64 (value : FloatVal) (decimals mode : Int) : FloatVal × Option Err :=
  if decimals < 0 then (FloatVal.finite 0, some Err.ErrInvalidPrecision)
  else
    match value with
    | FloatVal.nan => (FloatVal.nan, none)
    | FloatVal.posinf => (FloatVal.posinf, none)
    | FloatVal.neginf => (FloatVal.neginf, none)
    | FloatVal.finite x =>
      if mode = RoundDown then
        (FloatVal.finite (ratTrunc (x * mult10 decimals) / mult10 decimals), none)
      else if mode = RoundUp then
        if 0 ≤ x then
          (FloatVal.finite ((⌈x * mult10 decimals⌉ : ℚ) / mult10 decimals), none)
        else (FloatVal.finite ((⌊x * mult10 decimals⌋ : ℚ) / mult10 decimals), none)
      else if mode = RoundHalfUp then
        if 0 ≤ x then
          (FloatVal.finite ((⌊x * mult10 decimals + 1/2⌋ : ℚ) / mult10 decimals), none)
        else
          (FloatVal.finite ((⌈x * mult10 decimals - 1/2⌉ : ℚ) / mult10 decimals), none)
      else if mode = RoundHalfDown then
        if 0 ≤ x then
          (FloatVal.finite ((⌊x * mult10 decimals + 1/2 - halfDownEps⌋ : ℚ) / mult10 decimals),
            none)
        else
          (FloatVal.finite ((⌈x * mult10 decimals - 1/2 + halfDownEps⌉ : ℚ) / mult10 decimals),
            none)
      else if mode = RoundHalfEven then
        if abs (x * mult10 decimals - ratTrunc (x * mult10 decimals)) = 1/2 then
          if ratMod (ratTrunc (x * mult10 decimals)) 2 = 0 then
            (FloatVal.finite (ratTrunc (x * mult10 decimals) / mult10 decimals), none)
          else if 0 ≤ ratTrunc (x * mult10 decimals) then
            (FloatVal.finite ((ratTrunc (x * mult10 decimals) + 1) / mult10 decimals), none)
          else
            (FloatVal.finite ((ratTrunc (x * mult10 decimals) - 1) / mult10 decimals), none)
        else (FloatVal.finite (ratRound (x * mult10 decimals) / mult10 decimals), none)
      else if mode = RoundCeiling then
        (FloatVal.finite ((⌈x * mult10 decimals⌉ : ℚ) / mult10 decimals), none)
      else if mode = RoundFloor then
        (FloatVal.finite ((⌊x * mult10 decimals⌋ : ℚ) / mult10 decimals), none)
      else (FloatVal.finite 0, some Err.ErrInvalidRounding)

end rounding

/-! ## Arithmetic helper lemmas -/

theorem wrap64_eq_self {n : Int} (h1 : minInt64 ≤ n) (h2 : n ≤ maxInt64) : wrap64 n = n := by
  simp only [wrap64, minInt64, maxInt64] at *
  omega

theorem addW_eq {a b : Int} (h1 : minInt64 ≤ a + b) (h2 : a + b ≤ maxInt64) :
    addW a b = a + b :=
  wrap64_eq_self h1 h2

theorem subW_eq {a b : Int} (h1 : minInt64 ≤ a - b) (h2 : a - b ≤ maxInt64) :
    subW a b = a - b :=
  wrap64_eq_self h1 h2

theorem mulW_eq {a b : Int} (h1 : minInt64 ≤ a * b) (h2 : a * b ≤ maxInt64) :
    mulW a b = a * b :=
  wrap64_eq_self h1 h2

theorem negW_eq {a : Int} (h1 : minInt64 ≤ -a) (h2 : -a ≤ maxInt64) : negW a = -a :=
  wrap64_eq_self h1 h2

theorem neg_tmod_left (a b : Int) : (-a).tmod b = -(a.tmod b) := by
  rw [Int.tmod_def, Int.tmod_def, Int.neg_tdiv]
  ring

/-- Characterisation of Go (truncating) division and remainder for a
nonnegative dividend and positive divisor. -/
theorem tdiv_tmod_char_nonneg {a b q r : Int} (hb : 0 < b) (ha : 0 ≤ a)
    (hqr : a = b * q + r) (h0 : 0 ≤ r) (h1 : r < b) :
    a.tdiv b = q ∧ a.tmod b = r := by
  have hd : a.tdiv b = a / b := Int.tdiv_eq_ediv ha (le_of_lt hb)
  have hm : a.tmod b = a % b := Int.tmod_eq_emod ha (le_of_lt hb)
  have h4 := (Int.ediv_emod_unique (a := a) (b := b) (q := q) (r := r) hb).mpr
    ⟨by omega, h0, h1⟩
  exact ⟨hd ▸ h4.1, hm ▸ h4.2⟩

/-- Characterisation of Go (truncating) division and remainder for a
nonpositive dividend and positive divisor. -/
theorem tdiv_tmod_char_nonpos {a b q r : Int} (hb : 0 < b) (ha : a ≤ 0)
    (hqr : a = b * q + r) (h0 : r ≤ 0) (h1 : -b < r) :
    a.tdiv b = q ∧ a.tmod b = r := by
  have hneg := tdiv_tmod_char_nonneg (a := -a) (b := b) (q := -q) (r := -r) hb
    (by omega) (by rw [hqr]; ring) (by omega) (by omega)
  constructor
  · have h2 : (-a).tdiv b = -(a.tdiv b) := Int.neg_tdiv a b
    have h3 := hneg.1
    omega
  · have h2 : (-a).tmod b = -(a.tmod b) := neg_tmod_left a b
    have h3 := hneg.2
    omega

theorem tmod_bounds_nonneg {a b : Int} (ha : 0 ≤ a) (hb : 0 < b) :
    0 ≤ a.tmod b ∧ a.tmod b < b :=
  ⟨Int.tmod_nonneg b ha, Int.tmod_lt_of_pos a hb⟩

theorem tmod_bounds_nonpos {a b : Int} (ha : a ≤ 0) (hb : 0 < b) :
    -b < a.tmod b ∧ a.tmod b ≤ 0 := by
  have h1 := tmod_bounds_nonneg (a := -a) (b := b) (by omega) hb
  have h2 : (-a).tmod b = -(a.tmod b) := neg_tmod_left a b
  omega

theorem tdiv_add_tmod_eq (a b : Int) : a = b * a.tdiv b + a.tmod b := by
  have := Int.tdiv_add_tmod a b
  omega

/-- For a nonnegative numerator and positive denominator, strict
comparison against the truncating quotient is strict comparison of the
products. -/
theorem tdiv_lt_iff {M d x : Int} (hM : 0 ≤ M) (hd : 0 < d) :
    M.tdiv d < x ↔ M < x * d := by
  rw [Int.tdiv_eq_ediv hM (le_of_lt hd)]
  exact Int.ediv_lt_iff_lt_mul hd

theorem tmod_two_iff (x : Int) : x.tmod 2 = 0 ↔ x % 2 = 0 := by
  rcases le_or_lt 0 x with h | h
  · rw [Int.tmod_eq_emod h (by norm_num)]
  · have h1 : (-x).tmod 2 = -(x.tmod 2) := neg_tmod_left x 2
    have h2 : (-x).tmod 2 = (-x) % 2 := Int.tmod_eq_emod (by omega) (by norm_num)
    omega

/-! ## Exactness of the signed checked operations -/

theorem add_spec (a b : Int) (ha : inI64 a) (hb : inI64 b) :
    (inI64 (a + b) → safeint.Add a b = (a + b, none)) ∧
    (¬ inI64 (a + b) → safeint.Add a b = (0, some (Err.OverflowError "+" a b))) := by
  have hM : maxInt64 = 2 ^ 63 - 1 := rfl
  have hm : minInt64 = -(2 ^ 63) := rfl
  obtain ⟨ha1, ha2⟩ := ha
  obtain ⟨hb1, hb2⟩ := hb
  have e1 : (b > 0 ∧ a > subW maxInt64 b) ↔ maxInt64 < a + b := by
    constructor
    · rintro ⟨h1, h2⟩
      rw [subW_eq (by omega) (by omega)] at h2
      omega
    · intro h
      have h1 : 0 < b := by omega
      have h2 : subW maxInt64 b = maxInt64 - b := subW_eq (by omega) (by omega)
      exact ⟨h1, by omega⟩
  have e2 : (b < 0 ∧ a < subW minInt64 b) ↔ a + b < minInt64 := by
    constructor
    · rintro ⟨h1, h2⟩
      rw [subW_eq (by omega) (by omega)] at h2
      omega
    · intro h
      have h1 : b < 0 := by omega
      have h2 : subW minInt64 b = minInt64 - b := subW_eq (by omega) (by omega)
      exact ⟨h1, by omega⟩
  constructor
  · rintro ⟨hf1, hf2⟩
    unfold safeint.Add
    rw [if_neg (by rw [e1]; omega), if_neg (by rw [e2]; omega), addW_eq (by omega) (by omega)]
  · intro hnf
    simp only [inI64, not_and_or, not_le] at hnf
    unfold safeint.Add
    rcases hnf with h | h
    · rw [if_neg (by rw [e1]; omega), if_pos (e2.mpr h)]
    · rw [if_pos (e1.mpr h)]

theorem sub_spec (a b : Int) (ha : inI64 a) (hb : inI64 b) :
    (inI64 (a - b) → safeint.Sub a b = (a - b, none)) ∧
    (¬ inI64 (a - b) → safeint.Sub a b = (0, some (Err.OverflowError "-" a b))) := by
  have hM : maxInt64 = 2 ^ 63 - 1 := rfl
  have hm : minInt64 = -(2 ^ 63) := rfl
  obtain ⟨ha1, ha2⟩ := ha
  obtain ⟨hb1, hb2⟩ := hb
  have e1 : (b < 0 ∧ a > addW maxInt64 b) ↔ maxInt64 < a - b := by
    constructor
    · rintro ⟨h1, h2⟩
      rw [addW_eq (by omega) (by omega)] at h2
      omega
    · intro h
      have h1 : b < 0 := by omega
      have h2 : addW maxInt64 b = maxInt64 + b := addW_eq (by omega) (by omega)
      exact ⟨h1, by omega⟩
  have e2 : (b > 0 ∧ a < addW minInt64 b) ↔ a - b < minInt64 := by
    constructor
    · rintro ⟨h1, h2⟩
      rw [addW_eq (by omega) (by omega)] at h2
      omega
    · intro h
      have h1 : 0 < b := by omega
      have h2 : addW minInt64 b = minInt64 + b := addW_eq (by omega) (by omega)
      exact ⟨h1, by omega⟩
  constructor
  · rintro ⟨hf1, hf2⟩
    unfold safeint.Sub
    rw [if_neg (by rw [e1]; omega), if_neg (by rw [e2]; omega), subW_eq (by omega) (by omega)]
  · intro hnf
    simp only [inI64, not_and_or, not_le] at hnf
    unfold safeint.Sub
    rcases hnf with h | h
    · rw [if_neg (by rw [e1]; omega), if_pos (e2.mpr h)]
    · rw [if_pos (e1.mpr h)]

theorem mul_spec (a b : Int) (ha : inI64 a) (hb : inI64 b) :
    (inI64 (a * b) → safeint.Mul a b = (a * b, none)) ∧
    (¬ inI64 (a * b) → safeint.Mul a b = (0, some (Err.OverflowError "*" a b))) := by
  have hM : maxInt64 = 2 ^ 63 - 1 := rfl
  have hm : minInt64 = -(2 ^ 63) := rfl
  obtain ⟨ha1, ha2⟩ := ha
  obtain ⟨hb1, hb2⟩ := hb
  by_cases h0 : a = 0 ∨ b = 0
  · have hz : a * b = 0 := by rcases h0 with h | h <;> simp [h]
    constructor
    · intro _
      unfold safeint.Mul
      rw [if_pos h0, hz]
    · intro hnf
      exact absurd (hz ▸ ⟨by omega, by omega⟩) hnf
  · push_neg at h0
    obtain ⟨ha0, hb0⟩ := h0
    rcases lt_or_gt_of_ne ha0 with hA | hA <;> rcases lt_or_gt_of_ne hb0 with hB | hB
  -- case a < 0, b < 0
    · have hguard : a < maxInt64.tdiv b ↔ maxInt64 < a * b := by
        conv_lhs => rw [show b = -(-b) by ring, Int.tdiv_neg]
        have h2 : maxInt64.tdiv (-b) < -a ↔ maxInt64 < -a * -b :=
          tdiv_lt_iff (by omega) (by omega)
        rw [show (-a) * (-b) = a * b by ring] at h2
        omega
      have hpos : 0 < a * b := mul_pos_of_neg_of_neg hA hB
      constructor
      · rintro ⟨hf1, hf2⟩
        unfold safeint.Mul
        rw [if_neg (by rintro (h | h) <;> omega), if_neg (by rintro ⟨h, -⟩; omega),
          if_neg (by rintro ⟨-, -, h⟩; exact absurd (hguard.mp h) (by omega)),
          if_neg (by rintro ⟨h, -⟩; omega), if_neg (by rintro ⟨-, h, -⟩; omega),
          mulW_eq (by omega) (by omega)]
      · intro hnf
        simp only [inI64, not_and_or, not_le] at hnf
        have hov : maxInt64 < a * b := by omega
        unfold safeint.Mul
        rw [if_neg (by rintro (h | h) <;> omega), if_neg (by rintro ⟨h, -⟩; omega),
          if_pos ⟨hA, hB, hguard.mpr hov⟩]
  -- case a < 0, b > 0
    · have hguard : a < minInt64.tdiv b ↔ a * b < minInt64 := by
        rw [show minInt64 = -(2 ^ 63 : Int) from rfl, Int.neg_tdiv]
        have h2 : (2 ^ 63 : Int).tdiv b < -a ↔ (2 ^ 63 : Int) < -a * b :=
          tdiv_lt_iff (by omega) hB
        rw [show (-a) * b = -(a * b) by ring] at h2
        omega
      have hneg : a * b < 0 := mul_neg_of_neg_of_pos hA hB
      constructor
      · rintro ⟨hf1, hf2⟩
        unfold safeint.Mul
        rw [if_neg (by rintro (h | h) <;> omega), if_neg (by rintro ⟨h, -⟩; omega),
          if_neg (by rintro ⟨-, h, -⟩; omega), if_neg (by rintro ⟨h, -⟩; omega),
          if_neg (by rintro ⟨-, -, h⟩; exact absurd (hguard.mp h) (by omega)),
          mulW_eq (by omega) (by omega)]
      · intro hnf
        simp only [inI64, not_and_or, not_le] at hnf
        have hov : a * b < minInt64 := by omega
        unfold safeint.Mul
        rw [if_neg (by rintro (h | h) <;> omega), if_neg (by rintro ⟨h, -⟩; omega),
          if_neg (by rintro ⟨-, h, -⟩; omega), if_neg (by rintro ⟨h, -⟩; omega),
          if_pos ⟨hA, hB, hguard.mpr hov⟩]
  -- case a > 0, b < 0
    · have hguard : b < minInt64.tdiv a ↔ a * b < minInt64 := by
        rw [show minInt64 = -(2 ^ 63 : Int) from rfl, Int.neg_tdiv]
        have h2 : (2 ^ 63 : Int).tdiv a < -b ↔ (2 ^ 63 : Int) < -b * a :=
          tdiv_lt_iff (by omega) hA
        rw [show (-b) * a = -(a * b) by ring] at h2
        omega
      have hneg : a * b < 0 := mul_neg_of_pos_of_neg hA hB
      constructor
      · rintro ⟨hf1, hf2⟩
        unfold safeint.Mul
        rw [if_neg (by rintro (h | h) <;> omega), if_neg (by rintro ⟨-, h, -⟩; omega),
          if_neg (by rintro ⟨h, -⟩; omega),
          if_neg (by rintro ⟨-, -, h⟩; exact absurd (hguard.mp h) (by omega)),
          if_neg (by rintro ⟨h, -⟩; omega), mulW_eq (by omega) (by omega)]
      · intro hnf
        simp only [inI64, not_and_or, not_le] at hnf
        have hov : a * b < minInt64 := by omega
        unfold safeint.Mul
        rw [if_neg (by rintro (h | h) <;> omega), if_neg (by rintro ⟨-, h, -⟩; omega),
          if_neg (by rintro ⟨h, -⟩; omega), if_pos ⟨hA, hB, hguard.mpr hov⟩]
  -- case a > 0, b > 0
    · have hguard : maxInt64.tdiv b < a ↔ maxInt64 < a * b :=
        tdiv_lt_iff (by omega) hB
      have hpos : 0 < a * b := mul_pos hA hB
      constructor
      · rintro ⟨hf1, hf2⟩
        unfold safeint.Mul
        rw [if_neg (by rintro (h | h) <;> omega),
          if_neg (by rintro ⟨-, -, h⟩; exact absurd (hguard.mp h) (by omega)),
          if_neg (by rintro ⟨h, -⟩; omega), if_neg (by rintro ⟨-, h, -⟩; omega),
          if_neg (by rintro ⟨h, -⟩; omega), mulW_eq (by omega) (by omega)]
      · intro hnf
        simp only [inI64, not_and_or, not_le] at hnf
        have hov : maxInt64 < a * b := by omega
        unfold safeint.Mul
        rw [if_neg (by rintro (h | h) <;> omega), if_pos ⟨hA, hB, hguard.mpr hov⟩]

/-- C1: for all signed 64-bit `a, b`, each of `safeint.Add`, `safeint.Sub`
and `safeint.Mul` returns exactly the mathematical sum, difference or
product with no failure when that result lies in `[-2^63, 2^63-1]`, and
returns the Overflow failure (with zero in the value slot, no fabricated
number) when it does not. -/
theorem safeint_checked_arith_exact (a b : Int) (ha : inI64 a) (hb : inI64 b) :
    ((inI64 (a + b) → safeint.Add a b = (a + b, none)) ∧
     (¬ inI64 (a + b) → safeint.Add a b = (0, some (Err.OverflowError "+" a b)))) ∧
    ((inI64 (a - b) → safeint.Sub a b = (a - b, none)) ∧
     (¬ inI64 (a - b) → safeint.Sub a b = (0, some (Err.OverflowError "-" a b)))) ∧
    ((inI64 (a * b) → safeint.Mul a b = (a * b, none)) ∧
     (¬ inI64 (a * b) → safeint.Mul a b = (0, some (Err.OverflowError "*" a b)))) :=
  ⟨add_spec a b ha hb, sub_spec a b ha hb, mul_spec a b ha hb⟩

/-- Witness for C1 at concrete inputs: `Add(MaxInt64, 1)` overflows,
`Mul(MaxInt64/10, 11)` overflows, `Sub(3, 5) = -2`. -/
theorem safeint_checked_arith_exact_w :
    safeint.Add maxInt64 1 = (0, some (Err.OverflowError "+" maxInt64 1)) ∧
    safeint.Mul (maxInt64.tdiv 10) 11 =
      (0, some (Err.OverflowError "*" (maxInt64.tdiv 10) 11)) ∧
    safeint.Sub 3 5 = (-2, none) := by
  refine ⟨?_, ?_, ?_⟩
  · exact (safeint_checked_arith_exact maxInt64 1 (by decide) (by decide)).1.2 (by decide)
  · exact (safeint_checked_arith_exact (maxInt64.tdiv 10) 11
      (by decide) (by decide)).2.2.2 (by decide)
  · have h := (safeint_checked_arith_exact 3 5 (by decide) (by decide)).2.1.1 (by decide)
    norm_num at h
    exact h

/-- C7: the bounded signed variants first perform the checked operation and
propagate its Overflow failure unchanged; otherwise they fail with
LimitExceeded carrying the computed result, the bound and the operation
label exactly when the result exceeds the limit (falls below the floor for
`SubWithFloor`), and return the computed result with no failure
otherwise. -/
theorem safeint_bounded_variants (a b bound : Int) (ha : inI64 a) (hb : inI64 b) :
    ((¬ inI64 (a + b) → safeint.AddWithLimit a b bound = (0, some (Err.OverflowError "+" a b))) ∧
     (inI64 (a + b) → bound < a + b →
        safeint.AddWithLimit a b bound =
          (0, some (Err.LimitError (a + b) bound "addition"))) ∧
     (inI64 (a + b) → a + b ≤ bound → safeint.AddWithLimit a b bound = (a + b, none))) ∧
    ((¬ inI64 (a - b) → safeint.SubWithFloor a b bound = (0, some (Err.OverflowError "-" a b))) ∧
     (inI64 (a - b) → a - b < bound →
        safeint.SubWithFloor a b bound =
          (0, some (Err.LimitError (a - b) bound "subtraction floor"))) ∧
     (inI64 (a - b) → bound ≤ a - b → safeint.SubWithFloor a b bound = (a - b, none))) ∧
    ((¬ inI64 (a * b) → safeint.MulWithLimit a b bound = (0, some (Err.OverflowError "*" a b))) ∧
     (inI64 (a * b) → bound < a * b →
        safeint.MulWithLimit a b bound =
          (0, some (Err.LimitError (a * b) bound "multiplication"))) ∧
     (inI64 (a * b) → a * b ≤ bound → safeint.MulWithLimit a b bound = (a * b, none))) := by
  refine ⟨⟨?_, ?_, ?_⟩, ⟨?_, ?_, ?_⟩, ⟨?_, ?_, ?_⟩⟩
  · intro h
    unfold safeint.AddWithLimit
    rw [(add_spec a b ha hb).2 h]
  · intro hf hgt
    unfold safeint.AddWithLimit
    rw [(add_spec a b ha hb).1 hf]
    dsimp only
    rw [if_pos hgt]
  · intro hf hle
    unfold safeint.AddWithLimit
    rw [(add_spec a b ha hb).1 hf]
    dsimp only
    rw [if_neg (not_lt.mpr hle)]
  · intro h
    unfold safeint.SubWithFloor
    rw [(sub_spec a b ha hb).2 h]
  · intro hf hlt
    unfold safeint.SubWithFloor
    rw [(sub_spec a b ha hb).1 hf]
    dsimp only
    rw [if_pos hlt]
  · intro hf hge
    unfold safeint.SubWithFloor
    rw [(sub_spec a b ha hb).1 hf]
    dsimp only
    rw [if_neg (not_lt.mpr hge)]
  · intro h
    unfold safeint.MulWithLimit
    rw [(mul_spec a b ha hb).2 h]
  · intro hf hgt
    unfold safeint.MulWithLimit
    rw [(mul_spec a b ha hb).1 hf]
    dsimp only
    rw [if_pos hgt]
  · intro hf hle
    unfold safeint.MulWithLimit
    rw [(mul_spec a b ha hb).1 hf]
    dsimp only
    rw [if_neg (not_lt.mpr hle)]

/-- Witness for C7: `AddWithLimit(10, 30, 30)` fails with LimitExceeded
carrying computed value 40 and limit 30. -/
theorem safeint_bounded_variants_w :
    safeint.AddWithLimit 10 30 30 = (0, some (Err.LimitError 40 30 "addition")) := by
  have h := (safeint_bounded_variants 10 30 30 (by decide) (by decide)).1.2.1
    (by decide) (by decide)
  norm_num at h
  exact h

/-- C8: for all unsigned 64-bit `a, b`: `safeuint.Add` returns `a+b` with
no failure whenever `a+b ≤ MaxUint64` and an Overflow failure otherwise;
`safeuint.Sub` fails with the Overflow (underflow) failure exactly when
`a < b` and returns `a-b` otherwise; `safeuint.Mul` returns 0 when either
operand is 0, and otherwise returns `a*b` exactly when it fits and an
Overflow failure when it does not. -/
theorem safeuint_checked_arith_exact (a b : Nat) (ha : a ≤ maxUint64) (hb : b ≤ maxUint64) :
    ((a + b ≤ maxUint64 → safeuint.Add a b = (a + b, none)) ∧
     (maxUint64 < a + b → safeuint.Add a b = (0, some (Err.OverflowError "+" a b)))) ∧
    ((a < b → safeuint.Sub a b = (0, some (Err.OverflowError "-" a b))) ∧
     (b ≤ a → safeuint.Sub a b = (a - b, none))) ∧
    ((a = 0 ∨ b = 0 → safeuint.Mul a b = (0, none)) ∧
     (a ≠ 0 → b ≠ 0 → a * b ≤ maxUint64 → safeuint.Mul a b = (a * b, none)) ∧
     (a ≠ 0 → b ≠ 0 → maxUint64 < a * b → safeuint.Mul a b = (0, some (Err.OverflowError "*" a b)))) := by
  have hMn : maxUint64 = 2 ^ 64 - 1 := rfl
  have e1 : (b > 0 ∧ a > usubW maxUint64 b) ↔ maxUint64 < a + b := by
    unfold usubW
    omega
  refine ⟨⟨?_, ?_⟩, ⟨?_, ?_⟩, ⟨?_, ?_, ?_⟩⟩
  · intro hf
    unfold safeuint.Add
    rw [if_neg (by rw [e1]; omega), show uaddW a b = a + b from by unfold uaddW; omega]
  · intro hov
    unfold safeuint.Add
    rw [if_pos (e1.mpr hov)]
  · intro h
    unfold safeuint.Sub
    rw [if_pos h]
  · intro h
    unfold safeuint.Sub
    rw [if_neg (not_lt.mpr h)]
  · intro h
    unfold safeuint.Mul
    rw [if_pos h]
  · intro ha0 hb0 hf
    have hb1 : 0 < b := Nat.pos_of_ne_zero hb0
    unfold safeuint.Mul
    rw [if_neg (by rintro (h | h) <;> omega),
      if_neg (by rw [gt_iff_lt, Nat.div_lt_iff_lt_mul hb1]; omega),
      show umulW a b = a * b from by unfold umulW; omega]
  · intro ha0 hb0 hov
    have hb1 : 0 < b := Nat.pos_of_ne_zero hb0
    unfold safeuint.Mul
    rw [if_neg (by rintro (h | h) <;> omega),
      if_pos (by rw [gt_iff_lt, Nat.div_lt_iff_lt_mul hb1]; omega)]

/-- Witness for C8: `Add(MaxUint64, 0) = MaxUint64` with no failure, and
unsigned `Sub(3, 5)` is the Overflow (underflow) failure. -/
theorem safeuint_checked_arith_exact_w :
    safeuint.Add maxUint64 0 = (maxUint64, none) ∧
    safeuint.Sub 3 5 = (0, some (Err.OverflowError "-" 3 5)) := by
  constructor
  · have h := (safeuint_checked_arith_exact maxUint64 0 (by decide) (by decide)).1.1 (by decide)
    simpa using h
  · exact (safeuint_checked_arith_exact 3 5 (by decide) (by decide)).2.1.1 (by decide)

/-- C10: whenever any operation of the signed or unsigned
checked-arithmetic modules returns a failure, the numeric value returned
alongside it is exactly 0; a computed value rejected by a bound appears
only inside the LimitExceeded payload, never in the returned magnitude. -/
theorem failure_value_is_zero (a b bound : Int) (x y ubound : Nat) :
    ((safeint.Add a b).2 = none ∨ (safeint.Add a b).1 = 0) ∧
    ((safeint.Sub a b).2 = none ∨ (safeint.Sub a b).1 = 0) ∧
    ((safeint.Mul a b).2 = none ∨ (safeint.Mul a b).1 = 0) ∧
    ((safeint.AddWithLimit a b bound).2 = none ∨ (safeint.AddWithLimit a b bound).1 = 0) ∧
    ((safeint.SubWithFloor a b bound).2 = none ∨ (safeint.SubWithFloor a b bound).1 = 0) ∧
    ((safeint.MulWithLimit a b bound).2 = none ∨ (safeint.MulWithLimit a b bound).1 = 0) ∧
    ((safeuint.Add x y).2 = none ∨ (safeuint.Add x y).1 = 0) ∧
    ((safeuint.Sub x y).2 = none ∨ (safeuint.Sub x y).1 = 0) ∧
    ((safeuint.Mul x y).2 = none ∨ (safeuint.Mul x y).1 = 0) ∧
    ((safeuint.AddWithLimit x y ubound).2 = none ∨ (safeuint.AddWithLimit x y ubound).1 = 0) ∧
    ((safeuint.SubWithFloor x y ubound).2 = none ∨ (safeuint.SubWithFloor x y ubound).1 = 0) ∧
    ((safeuint.MulWithLimit x y ubound).2 = none ∨ (safeuint.MulWithLimit x y ubound).1 = 0) := by
  refine ⟨?_, ?_, ?_, ?_, ?_, ?_, ?_, ?_, ?_, ?_, ?_, ?_⟩
  · unfold safeint.Add
    split
    · right; rfl
    split
    · right; rfl
    · left; rfl
  · unfold safeint.Sub
    split
    · right; rfl
    split
    · right; rfl
    · left; rfl
  · unfold safeint.Mul
    split
    · left; rfl
    split
    · right; rfl
    split
    · right; rfl
    split
    · right; rfl
    split
    · right; rfl
    · left; rfl
  · rcases h : safeint.Add a b with ⟨v, e⟩
    unfold safeint.AddWithLimit
    rw [h]
    rcases e with - | e
    · dsimp only
      split
      · right; rfl
      · left; rfl
    · right; rfl
  · rcases h : safeint.Sub a b with ⟨v, e⟩
    unfold safeint.SubWithFloor
    rw [h]
    rcases e with - | e
    · dsimp only
      split
      · right; rfl
      · left; rfl
    · right; rfl
  · rcases h : safeint.Mul a b with ⟨v, e⟩
    unfold safeint.MulWithLimit
    rw [h]
    rcases e with - | e
    · dsimp only
      split
      · right; rfl
      · left; rfl
    · right; rfl
  · unfold safeuint.Add
    split
    · right; rfl
    · left; rfl
  · unfold safeuint.Sub
    split
    · right; rfl
    · left; rfl
  · unfold safeuint.Mul
    split
    · left; rfl
    split
    · right; rfl
    · left; rfl
  · rcases h : safeuint.Add x y with ⟨v, e⟩
    unfold safeuint.AddWithLimit
    rw [h]
    rcases e with - | e
    · dsimp only
      split
      · right; rfl
      · left; rfl
    · right; rfl
  · rcases h : safeuint.Sub x y with ⟨v, e⟩
    unfold safeuint.SubWithFloor
    rw [h]
    rcases e with - | e
    · dsimp only
      split
      · right; rfl
      · left; rfl
    · right; rfl
  · rcases h : safeuint.Mul x y with ⟨v, e⟩
    unfold safeuint.MulWithLimit
    rw [h]
    rcases e with - | e
    · dsimp only
      split
      · right; rfl
      · left; rfl
    · right; rfl

/-! ## Rounding engine theorems -/

/-- C2 (code-bug evidence): rounding already-aligned values is not the
identity under every mode.  `RoundInt64(-150, 10, RoundDown)` returns
`-140` (the source's own comment says "truncate toward zero" and its
contract says "nearest multiple", both of which demand `-150`), and
`RoundInt64(3, 1, RoundHalfEven)` returns `4` instead of `3`. -/
theorem roundInt64_aligned_not_identity :
    rounding.RoundInt64 (-150) 10 rounding.RoundDown = (-140, none) ∧
    rounding.RoundInt64 3 1 rounding.RoundHalfEven = (4, none) := by
  decide

/-- C3 (code-bug evidence): `RoundInt64(-155, 10, RoundDown)` returns
`-140`, not the toward-zero truncation `-150` demanded by the claim, the
spec and the source's own comment; `-140` is not even an adjacent multiple
of 10 around `-155`. -/
theorem roundInt64_down_negative_eval :
    rounding.RoundInt64 (-155) 10 rounding.RoundDown = (-140, none) := by
  decide

/-- Counterexample to C4 as stated: `RoundInt64(-155, 10, RoundUp)`
returns `-150` (truncation toward zero), not the away-from-zero multiple
`-160` the claim demands. -/
theorem roundInt64_up_negative_counterexample :
    rounding.RoundInt64 (-155) 10 rounding.RoundUp = (-150, none) ∧
    (rounding.RoundInt64 (-155) 10 rounding.RoundUp).1 ≠ -160 := by
  decide

/-- C4 amended: for every negative in-range value and positive unit,
`RoundInt64(value, unit, RoundUp)` truncates toward zero to a multiple of
`unit`: the result `r` is the unique multiple of `unit` with
`value ≤ r ≤ 0` and `r < value + unit` (so `-155` with unit `10` yields
`-150`, matching the spec's own concrete scenario). -/
theorem roundInt64_up_negative_truncates (value unit : Int)
    (hv : minInt64 ≤ value) (hneg : value < 0) (hu : 0 < unit) :
    ∃ r, rounding.RoundInt64 value unit rounding.RoundUp = (r, none) ∧
      unit ∣ r ∧ value ≤ r ∧ r ≤ 0 ∧ r < value + unit := by
  have hM : maxInt64 = 2 ^ 63 - 1 := rfl
  have hm : minInt64 = -(2 ^ 63) := rfl
  have hmod := tmod_bounds_nonpos (le_of_lt hneg) hu
  have heq := tdiv_add_tmod_eq value unit
  have hq : value.tdiv unit ≤ 0 := by
    have h1 : (-value).tdiv unit = -(value.tdiv unit) := Int.neg_tdiv value unit
    have h2 : 0 ≤ (-value).tdiv unit := Int.tdiv_nonneg (by omega) (le_of_lt hu)
    omega
  have ht : unit * value.tdiv unit ≤ 0 := by
    have := mul_le_mul_of_nonneg_left hq (le_of_lt hu)
    simpa using this
  have hw : mulW (value.tdiv unit) unit = unit * value.tdiv unit := by
    unfold mulW
    rw [mul_comm]
    exact wrap64_eq_self (by omega) (by omega)
  refine ⟨unit * value.tdiv unit, ?_, ⟨value.tdiv unit, rfl⟩, by omega, by omega, by omega⟩
  unfold rounding.RoundInt64
  rw [if_neg (by omega), if_neg (by decide), if_pos rfl, if_neg (by omega), hw]

/-- Witness for the amended C4 at the spec's concrete scenario
`RoundInt64(-155, 10, RoundUp)`. -/
theorem roundInt64_up_negative_truncates_w :
    (minInt64 ≤ (-155 : Int) ∧ (-155 : Int) < 0 ∧ (0 : Int) < 10) ∧
    ∃ r, rounding.RoundInt64 (-155) 10 rounding.RoundUp = (r, none) ∧
      (10 : Int) ∣ r ∧ -155 ≤ r ∧ r ≤ 0 ∧ r < -155 + 10 :=
  ⟨⟨by decide, by decide, by decide⟩,
    roundInt64_up_negative_truncates (-155) 10 (by decide) (by decide) (by decide)⟩

/-- C9: `RoundFloat64` applied to NaN, positive infinity or negative
infinity returns that input unchanged with no failure, for every
`decimals ≥ 0` and every mode value whatsoever. -/
theorem roundFloat64_special_passthrough (decimals mode : Int)
    (hd : 0 ≤ decimals) :
    rounding.RoundFloat64 rounding.FloatVal.nan decimals mode =
      (rounding.FloatVal.nan, none) ∧
    rounding.RoundFloat64 rounding.FloatVal.posinf decimals mode =
      (rounding.FloatVal.posinf, none) ∧
    rounding.RoundFloat64 rounding.FloatVal.neginf decimals mode =
      (rounding.FloatVal.neginf, none) := by
  refine ⟨?_, ?_, ?_⟩ <;> (unfold rounding.RoundFloat64; rw [if_neg (by omega)])

/-- Witness for C9 at `decimals = 2` and the out-of-range mode 99. -/
theorem roundFloat64_special_passthrough_w :
    rounding.RoundFloat64 rounding.FloatVal.nan 2 99 = (rounding.FloatVal.nan, none) ∧
    rounding.RoundFloat64 rounding.FloatVal.posinf 2 99 = (rounding.FloatVal.posinf, none) ∧
    rounding.RoundFloat64 rounding.FloatVal.neginf 2 99 = (rounding.FloatVal.neginf, none) :=
  roundFloat64_special_passthrough 2 99 (by decide)

/-- Counterexample to C5 as stated: a non-positive unit together with an
unrecognized mode yields InvalidPrecision (not InvalidRoundingMode), and a
NaN input with an unrecognized mode passes through with no failure at all —
the earlier argument checks preempt mode validation. -/
theorem invalid_mode_counterexample :
    rounding.RoundInt64 155 0 99 = (0, some Err.ErrInvalidPrecision) ∧
    rounding.RoundFloat64 rounding.FloatVal.nan 2 99 = (rounding.FloatVal.nan, none) := by
  decide

/-- C5 amended: an unrecognized mode (outside 0..6) yields
InvalidRoundingMode only after the earlier argument checks pass: for
`RoundInt64` whenever `unit > 0` (with `unit ≤ 0` the precision failure
takes precedence), and for `RoundFloat64` whenever `decimals ≥ 0` and the
value is finite (with `decimals < 0` the precision failure takes
precedence, and NaN/±Inf pass through with no failure).  No default mode is
ever substituted. -/
theorem invalid_mode_after_guards (value unit decimals mode : Int)
    (hmode : mode < 0 ∨ 6 < mode) :
    (0 < unit → rounding.RoundInt64 value unit mode = (0, some Err.ErrInvalidRounding)) ∧
    (unit ≤ 0 → rounding.RoundInt64 value unit mode = (0, some Err.ErrInvalidPrecision)) ∧
    (0 ≤ decimals → ∀ x : ℚ,
      rounding.RoundFloat64 (rounding.FloatVal.finite x) decimals mode =
        (rounding.FloatVal.finite 0, some Err.ErrInvalidRounding)) ∧
    (0 ≤ decimals →
      rounding.RoundFloat64 rounding.FloatVal.nan decimals mode =
        (rounding.FloatVal.nan, none) ∧
      rounding.RoundFloat64 rounding.FloatVal.posinf decimals mode =
        (rounding.FloatVal.posinf, none) ∧
      rounding.RoundFloat64 rounding.FloatVal.neginf decimals mode =
        (rounding.FloatVal.neginf, none)) ∧
    (decimals < 0 → ∀ v : rounding.FloatVal,
      rounding.RoundFloat64 v decimals mode =
        (rounding.FloatVal.finite 0, some Err.ErrInvalidPrecision)) := by
  refine ⟨?_, ?_, ?_, ?_, ?_⟩
  · intro hu
    unfold rounding.RoundInt64
    simp only [rounding.RoundDown, rounding.RoundUp, rounding.RoundHalfUp,
      rounding.RoundHalfDown, rounding.RoundHalfEven, rounding.RoundCeiling,
      rounding.RoundFloor]
    iterate 8 rw [if_neg (by omega)]
  · intro hu
    unfold rounding.RoundInt64
    rw [if_pos hu]
  · intro hd x
    unfold rounding.RoundFloat64
    rw [if_neg (by omega)]
    dsimp only
    simp only [rounding.RoundDown, rounding.RoundUp, rounding.RoundHalfUp,
      rounding.RoundHalfDown, rounding.RoundHalfEven, rounding.RoundCeiling,
      rounding.RoundFloor]
    iterate 7 rw [if_neg (by omega)]
  · intro hd
    refine ⟨?_, ?_, ?_⟩ <;> (unfold rounding.RoundFloat64; rw [if_neg (by omega)])
  · intro hd v
    unfold rounding.RoundFloat64
    rw [if_pos hd]

/-- Witness for the amended C5 at mode 99. -/
theorem invalid_mode_after_guards_w :
    rounding.RoundInt64 155 10 99 = (0, some Err.ErrInvalidRounding) ∧
    rounding.RoundFloat64 (rounding.FloatVal.finite (1055/100)) 2 99 =
      (rounding.FloatVal.finite 0, some Err.ErrInvalidRounding) ∧
    rounding.RoundInt64 155 (-10) 99 = (0, some Err.ErrInvalidPrecision) := by
  have h := invalid_mode_after_guards 155 10 2 99 (by omega)
  have h2 := invalid_mode_after_guards 155 (-10) 2 99 (by omega)
  exact ⟨h.1 (by omega), h.2.2.1 (by omega) _, h2.2.1 (by omega)⟩

/-- Counterexample to C6 as stated: at `value = MaxInt64`, `unit = 2` the
value is exactly halfway between the multiples `2^63 - 2` and `2^63`; the
even-quotient neighbor `2^63` is not representable and the computation
wraps, returning `MinInt64`, which is not a neighboring multiple of the
input at all. -/
theorem roundInt64_halfEven_wrap_counterexample :
    rounding.RoundInt64 maxInt64 2 rounding.RoundHalfEven = (minInt64, none) ∧
    (rounding.RoundInt64 maxInt64 2 rounding.RoundHalfEven).1 < maxInt64 - 2 := by
  decide

/-- C6 amended: HalfEven parity law for the integer path, restricted to
ties whose even-quotient neighbor is representable.  If `unit = 2*h` with
`h > 0`, `value = k*unit + h` (so `value` is exactly halfway between the
adjacent multiples `k*unit` and `(k+1)*unit`), and both neighbors lie in
the `int64` range (`minInt64 + h ≤ value ≤ maxInt64 - h`), then
`RoundInt64(value, unit, RoundHalfEven)` succeeds and returns the
neighboring multiple whose quotient by `unit` is even.  At the boundary
excluded here the computation wraps (see the counterexample). -/
theorem roundInt64_halfEven_tie_parity (value unit h k : Int)
    (hh : 0 < h) (hu : unit = 2 * h) (hun : unit ≤ maxInt64)
    (hv : value = k * unit + h)
    (hlo : minInt64 + h ≤ value) (hhi : value ≤ maxInt64 - h) :
    ∃ q, rounding.RoundInt64 value unit rounding.RoundHalfEven = (q * unit, none) ∧
      q % 2 = 0 ∧ (q = k ∨ q = k + 1) := by
  have hM : maxInt64 = 2 ^ 63 - 1 := rfl
  have hm : minInt64 = -(2 ^ 63) := rfl
  have hup : 0 < unit := by omega
  have hhalf : unit.tdiv 2 = h :=
    (tdiv_tmod_char_nonneg (a := unit) (b := 2) (q := h) (r := 0)
      (by norm_num) (by omega) (by omega) (by omega) (by omega)).1
  have hk1u : (k + 1) * unit = value + h := by rw [hv, hu]; ring
  have hkuv : k * unit = value - h := by rw [hv]; ring
  rcases le_or_lt 0 k with hk | hk
  · -- value is nonnegative; the Go quotient is k and the Go remainder is h
    have hku : 0 ≤ k * unit := mul_nonneg hk (le_of_lt hup)
    have hval0 : 0 ≤ value := by omega
    have hchar := tdiv_tmod_char_nonneg (a := value) (b := unit) (q := k) (r := h)
      hup hval0 (by rw [hv]; ring) (by omega) (by omega)
    unfold rounding.RoundInt64
    rw [if_neg (by omega)]
    iterate 4 rw [if_neg (by decide)]
    rw [if_pos rfl, hhalf, hchar.1, hchar.2, if_pos (Or.inl rfl)]
    by_cases hpar : k.tmod 2 = 0
    · rw [if_pos hpar]
      refine ⟨k, ?_, (tmod_two_iff k).mp hpar, Or.inl rfl⟩
      rw [show mulW k unit = k * unit from wrap64_eq_self (by omega) (by omega)]
    · rw [if_neg hpar, if_pos (by omega)]
      have hkb : k + 1 ≤ (k + 1) * unit := le_mul_of_one_le_right (by omega) (by omega)
      rw [show addW (k : Int) 1 = k + 1 from wrap64_eq_self (by omega) (by omega)]
      refine ⟨k + 1, ?_, ?_, Or.inr rfl⟩
      · rw [show mulW (k + 1) unit = (k + 1) * unit from wrap64_eq_self (by omega) (by omega)]
      · have h2 : ¬ (k % 2 = 0) := fun hc => hpar ((tmod_two_iff k).mpr hc)
        omega
  · -- value is negative; the Go quotient is k+1 and the Go remainder is -h
    have hku : k * unit ≤ -unit := by
      have := mul_le_mul_of_nonneg_right (show k ≤ -1 by omega) (le_of_lt hup)
      simpa using this
    have hval0 : value ≤ 0 := by omega
    have hchar := tdiv_tmod_char_nonpos (a := value) (b := unit) (q := k + 1) (r := -h)
      hup hval0 (by rw [hv, hu]; ring) (by omega) (by omega)
    have hnegh : negW h = -h := negW_eq (by omega) (by omega)
    unfold rounding.RoundInt64
    rw [if_neg (by omega)]
    iterate 4 rw [if_neg (by decide)]
    rw [if_pos rfl, hhalf, hchar.1, hchar.2, hnegh, if_pos (Or.inr rfl)]
    by_cases hpar : (k + 1).tmod 2 = 0
    · rw [if_pos hpar]
      refine ⟨k + 1, ?_, (tmod_two_iff (k + 1)).mp hpar, Or.inr rfl⟩
      rw [show mulW (k + 1) unit = (k + 1) * unit from wrap64_eq_self (by omega) (by omega)]
    · have hk10 : k + 1 < 0 := by
        rcases eq_or_lt_of_le (show k + 1 ≤ 0 by omega) with hc | hc
        · exact absurd (by rw [hc]; decide) hpar
        · exact hc
      rw [if_neg hpar, if_neg (by omega)]
      have hkk : k * unit ≤ k := by
        have := mul_le_mul_of_nonpos_left (show (1 : Int) ≤ unit by omega)
          (show k ≤ 0 by omega)
        simpa using this
      rw [show subW (k + 1) 1 = k from by
        unfold subW
        rw [show k + 1 - 1 = k by ring]
        exact wrap64_eq_self (by omega) (by omega)]
      refine ⟨k, ?_, ?_, Or.inl rfl⟩
      · rw [show mulW k unit = k * unit from wrap64_eq_self (by omega) (by omega)]
      · have h2 : ¬ ((k + 1) % 2 = 0) := fun hc => hpar ((tmod_two_iff _).mpr hc)
        omega

/-- Witness for the amended C6 at the spec's concrete scenarios:
tie `150` with unit `20` (`k = 7`, odd, rounds up to quotient 8) and tie
`170` with unit `20` (`k = 8`, even, rounds down to quotient 8), both
giving `160`. -/
theorem roundInt64_halfEven_tie_parity_w :
    ((0 : Int) < 10 ∧ (20 : Int) = 2 * 10 ∧ (150 : Int) = 7 * 20 + 10) ∧
    (∃ q, rounding.RoundInt64 150 20 rounding.RoundHalfEven = (q * 20, none) ∧
      q % 2 = 0 ∧ (q = 7 ∨ q = 7 + 1)) ∧
    rounding.RoundInt64 150 20 rounding.RoundHalfEven = (160, none) ∧
    rounding.RoundInt64 170 20 rounding.RoundHalfEven = (160, none) :=
  ⟨⟨by decide, by decide, by decide⟩,
    roundInt64_halfEven_tie_parity 150 20 10 7 (by decide) (by decide) (by decide)
      (by decide) (by decide) (by decide),
    by decide, by decide⟩
